import Mathlib

/-!
Verification of the task-order PDF extractor (`src/pdf_extractor.py`).

The development shallowly embeds the two core components of the program:

* the field extractor `extract_pdf_data` / `extract_contractor_name`,
  including a faithful model of the concrete Python regular expressions it
  uses (compiled by hand into a small backtracking matcher with Python
  `re.search` semantics: leftmost match, ordered alternation, greedy
  quantifiers), of `datetime.strptime`/`strftime` on the two date formats
  `%m/%d/%y` and `%m/%d/%Y` (including CPython's two-digit-year pivot
  00-68 -> 20xx, 69-99 -> 19xx), and of `float()` acceptance on the
  digit/comma/dot strings the program feeds it;
* the store merger `update_excel`, with the pandas operations it performs
  (duplicate-key test through `astype(str)`, `pd.to_datetime` over the
  start-date column, descending `sort_values` with missing dates last,
  full-file overwrite on success and unchanged file on exception).

Text is modeled as `List Char` (ASCII; the documents the program handles
are ASCII form text). Floating-point values are represented by their
source token: the program performs no arithmetic on them, it only stores
them. The order of rows that tie on the sort key is left to the model's
insertion sort; pandas' default unstable quicksort fixes no tie order
either.
-/

/-! ## Character classes (ASCII models of Python `\d`, `\w`, `\s`, case folding) -/

/-- Numeric code of a character. -/
def cn (c : Char) : Nat := c.toNat

/-- ASCII lower-casing on character codes, as used by `re.IGNORECASE`. -/
def lowerN (n : Nat) : Nat := if 65 ≤ n ∧ n ≤ 90 then n + 32 else n

/-- Case-insensitive character equality (ASCII). -/
def ciCharEq (a b : Char) : Bool := lowerN (cn a) == lowerN (cn b)

/-- Python `\d` restricted to ASCII: the digits `0`-`9`. -/
def digitB (c : Char) : Bool := 48 ≤ cn c && cn c ≤ 57

/-- Python `\s` restricted to ASCII: space, tab, newline, CR, VT, FF. -/
def pyWs (c : Char) : Bool :=
  cn c == 32 || cn c == 9 || cn c == 10 || cn c == 13 || cn c == 11 || cn c == 12

/-- Python `\w` restricted to ASCII: letters, digits, underscore. -/
def wordB (c : Char) : Bool :=
  digitB c || (65 ≤ cn c && cn c ≤ 90) || (97 ≤ cn c && cn c ≤ 122) || cn c == 95

/-- Character class `[\w-]` of the Task Order # pattern. -/
def wordDashB (c : Char) : Bool := wordB c || c == '-'

/-- Character class `[\d,]` of the Total Amount pattern. -/
def digitCommaB (c : Char) : Bool := digitB c || c == ','

/-- Character class `[\d.]` of the Feeder Total Miles pattern. -/
def digitDotB (c : Char) : Bool := digitB c || c == '.'

/-- Model of Python `str.strip()` on ASCII text: drop whitespace at both ends. -/
def pyStrip (s : List Char) : List Char :=
  (((s.dropWhile pyWs).reverse.dropWhile pyWs).reverse)

/-- Model of `value.replace(',', '')`: remove every comma. -/
def stripCommas (s : List Char) : List Char := s.filter (fun c => !(c == ','))

/-- Numeric value of a digit string, as computed by Python `int()` on a
`\d+` match (which can never fail). -/
def digitsToNat (s : List Char) : Nat := s.foldl (fun a c => 10 * a + (cn c - 48)) 0

/-! ## A small regular-expression matcher with Python `re` semantics

The program uses seven fixed regular expressions.  We compile each of them
by hand into the following abstract syntax and run them with a
backtracking matcher that reproduces Python `re.search`: alternatives are
tried in written order, quantifiers are greedy, the leftmost successful
start position wins.  Quantifiers appear in the source patterns only over
single character classes, which is all the syntax supports. -/

/-- Abstract syntax of the fragment of Python regular expressions the
program uses.  `lit` compares case-insensitively, modelling the
`re.IGNORECASE` flag passed to every `re.search` call in the source. -/
inductive RE where
  | eps : RE
  | lit (l : List Char) : RE
  | seq (a b : RE) : RE
  | alt (a b : RE) : RE
  | opt (a : RE) : RE
  | star (p : Char → Bool) : RE
  | plus (p : Char → Bool) : RE
  | rep (n : Nat) (p : Char → Bool) : RE

/-- Case-insensitive literal prefix removal: the remainder of `s` after
the literal `l`, when `l` case-insensitively heads `s`. -/
def stripCI : List Char → List Char → Option (List Char)
  | [], s => some s
  | _ :: _, [] => none
  | l :: ls, c :: cs => if ciCharEq c l then stripCI ls cs else none

/-- Remainders after a greedy `p*` at the front of `s`, longest
consumption first (Python's backtracking order). -/
def starM (p : Char → Bool) : List Char → List (List Char)
  | [] => [[]]
  | c :: cs => if p c then starM p cs ++ [c :: cs] else [c :: cs]

/-- Remainders after a greedy `p+` at the front of `s`, longest first. -/
def plusM (p : Char → Bool) : List Char → List (List Char)
  | [] => []
  | c :: cs => if p c then starM p cs else []

/-- Remainder after exactly `n` characters of class `p`. -/
def repM (p : Char → Bool) : Nat → List Char → Option (List Char)
  | 0, s => some s
  | _ + 1, [] => none
  | n + 1, c :: cs => if p c then repM p n cs else none

/-- All remainders of matching `re` at the front of the string, in
Python's backtracking priority order (first element = the alternative a
backtracking engine commits to first). -/
def mtc : RE → List Char → List (List Char)
  | .eps, s => [s]
  | .lit l, s =>
    match stripCI l s with
    | some r => [r]
    | none => []
  | .seq a b, s => (mtc a s).flatMap (fun r => mtc b r)
  | .alt a b, s => mtc a s ++ mtc b s
  | .opt a, s => mtc a s ++ [s]
  | .star p, s => starM p s
  | .plus p, s => plusM p s
  | .rep n p, s =>
    match repM p n s with
    | some r => [r]
    | none => []

/-- Result of anchoring `pre (cap) post` at the front of `s`: the text
consumed by the capture group of the first full match, in backtracking
order.  This is the group the Python patterns mark with `(...)`. -/
def matchCapAt (pre cap post : RE) (s : List Char) : Option (List Char) :=
  ((mtc pre s).flatMap (fun r1 =>
    (mtc cap r1).flatMap (fun r2 =>
      (mtc post r2).map (fun _ => r1.take (r1.length - r2.length))))).head?

/-- Model of Python `re.search(pre (cap) post, s, re.IGNORECASE).group(1)`:
try each start position left to right, return the capture of the first
position that matches. -/
def reSearch (pre cap post : RE) : List Char → Option (List Char)
  | [] => matchCapAt pre cap post []
  | c :: cs =>
    match matchCapAt pre cap post (c :: cs) with
    | some v => some v
    | none => reSearch pre cap post cs

/-! ## The concrete patterns of the source

Each Python pattern is compiled by hand into `RE` syntax.  The capture
group `(...)` of each pattern is split out as its own `RE` so that
`reSearch` can return it. -/

/-- Apostrophe character (code 39). -/
def apos : Char := Char.ofNat 39

/-- Pattern fragment `\s*`. -/
def wsStar : RE := RE.star pyWs

/-- Pattern fragment `:?`. -/
def optColon : RE := RE.opt (RE.lit [':'])

/-- Contractor pattern `(Xpert'?s LLC)`. -/
def xpertCap : RE :=
  RE.seq (RE.lit "Xpert".toList) (RE.seq (RE.opt (RE.lit [apos])) (RE.lit "s LLC".toList))

/-- Contractor pattern `(Ceres Environmental Services,\s*Inc\.?)`. -/
def ceresCap : RE :=
  RE.seq (RE.lit "Ceres Environmental Services,".toList)
    (RE.seq wsStar (RE.seq (RE.lit "Inc".toList) (RE.opt (RE.lit ['.']))))

/-- Contractor pattern `(Wright Tree Service of Puerto Rico,\s*LLC)`. -/
def wrightCap : RE :=
  RE.seq (RE.lit "Wright Tree Service of Puerto Rico,".toList)
    (RE.seq wsStar (RE.lit "LLC".toList))

/-- Prefix of `Task Order Number:?\s*([\w-]+)`. -/
def taskOrderPre : RE := RE.seq (RE.lit "Task Order Number".toList) (RE.seq optColon wsStar)

/-- Capture of the Task Order # pattern: `[\w-]+`. -/
def taskOrderCap : RE := RE.plus wordDashB

/-- Prefix of `Task Order Total Amount:?\s*\$?([\d,]+\.\d{2})`. -/
def amountPre : RE :=
  RE.seq (RE.lit "Task Order Total Amount".toList)
    (RE.seq optColon (RE.seq wsStar (RE.opt (RE.lit ['$']))))

/-- Capture of the Total Amount pattern: `[\d,]+\.\d{2}`. -/
def amountCap : RE :=
  RE.seq (RE.plus digitCommaB) (RE.seq (RE.lit ['.']) (RE.rep 2 digitB))

/-- Prefix of `(?:Feeder|Feeder ID:?)\s*(\d{4}-\d{2})`. -/
def feederPre : RE :=
  RE.seq (RE.alt (RE.lit "Feeder".toList) (RE.seq (RE.lit "Feeder ID".toList) optColon)) wsStar

/-- Capture of the Feeder ID pattern: `\d{4}-\d{2}`. -/
def feederCap : RE := RE.seq (RE.rep 4 digitB) (RE.seq (RE.lit ['-']) (RE.rep 2 digitB))

/-- Prefix of `Length:?\s*([\d.]+)\s*(?:overhead miles|Overhead miles)`. -/
def milesPre : RE := RE.seq (RE.lit "Length".toList) (RE.seq optColon wsStar)

/-- Capture of the Feeder Total Miles pattern: `[\d.]+`. -/
def milesCap : RE := RE.plus digitDotB

/-- Suffix of the Feeder Total Miles pattern: `\s*(?:overhead miles|Overhead miles)`. -/
def milesPost : RE :=
  RE.seq wsStar (RE.alt (RE.lit "overhead miles".toList) (RE.lit "Overhead miles".toList))

/-- Prefix of `Work Orders:?\s*(\d+)(?:\s*WO locations)?`. -/
def woPre : RE := RE.seq (RE.lit "Work Orders".toList) (RE.seq optColon wsStar)

/-- Capture of the # of Work Orders pattern: `\d+`. -/
def woCap : RE := RE.plus digitB

/-- Suffix of the # of Work Orders pattern: `(?:\s*WO locations)?`. -/
def woPost : RE := RE.opt (RE.seq wsStar (RE.lit "WO locations".toList))

/-- Prefix of the two date patterns, `label:?\s*`, with label
`Start Date` or `End Date`. -/
def datePre (label : String) : RE := RE.seq (RE.lit label.toList) (RE.seq optColon wsStar)

/-- Capture of the date patterns: `\d{2}/\d{2}/(?:\d{2}|\d{4})`.  Note the
ordered alternation: a backtracking engine with nothing to match after the
group always commits to the `\d{2}` branch, so the captured year token is
always two digits, even when four digits are present in the text. -/
def dateCap : RE :=
  RE.seq (RE.rep 2 digitB)
    (RE.seq (RE.lit ['/'])
      (RE.seq (RE.rep 2 digitB)
        (RE.seq (RE.lit ['/']) (RE.alt (RE.rep 2 digitB) (RE.rep 4 digitB)))))

/-! ## Dates: `datetime.strptime` on `%m/%d/%y` and `%m/%d/%Y`, `strftime('%m/%d/%Y')`

CPython's `strptime` matches `%m` with `1[0-2]|0[1-9]|[1-9]`, `%d` with
`3[01]|[12]\d|0[1-9]|[1-9]`, `%y` with exactly two digits and `%Y` with
exactly four, requires the whole string to be consumed, maps a two-digit
year through the pivot 00-68 -> 2000-2068 / 69-99 -> 1969-1999, and then
validates the day against the (proleptic Gregorian) month length,
rejecting year 0.  Because the separators `/` cannot occur inside any of
the numeric components, consuming the format is equivalent to splitting
the string at `/` and checking each token, which is how we model it. -/

/-- Model of Python `value.split('/')`. -/
def splitSlash : List Char → List (List Char)
  | [] => [[]]
  | c :: rest =>
    if c == '/' then [] :: splitSlash rest
    else
      match splitSlash rest with
      | [] => [[c]]
      | g :: gs => (c :: g) :: gs

/-- Model of `value.split('/')[-1]`, the token after the last slash. -/
def lastTok (s : List Char) : List Char := (splitSlash s).getLastD []

/-- Value of one digit character, when it is a digit. -/
def dval (c : Char) : Option Nat := if digitB c then some (cn c - 48) else none

/-- Month token of `%m`: one digit `1`-`9` or two digits `01`-`12`. -/
def monthTok : List Char → Option Nat
  | [c] => (dval c).bind (fun v => if 1 ≤ v then some v else none)
  | [c1, c2] =>
    (dval c1).bind (fun u => (dval c2).bind (fun v =>
      let n := 10 * u + v
      if 1 ≤ n ∧ n ≤ 12 then some n else none))
  | _ => none

/-- Day token of `%d`: one digit `1`-`9` or two digits `01`-`31`. -/
def dayTok : List Char → Option Nat
  | [c] => (dval c).bind (fun v => if 1 ≤ v then some v else none)
  | [c1, c2] =>
    (dval c1).bind (fun u => (dval c2).bind (fun v =>
      let n := 10 * u + v
      if 1 ≤ n ∧ n ≤ 31 then some n else none))
  | _ => none

/-- Year token of `%y`: exactly two digits. -/
def yearTok2 : List Char → Option Nat
  | [c1, c2] => (dval c1).bind (fun u => (dval c2).map (fun v => 10 * u + v))
  | _ => none

/-- Year token of `%Y`: exactly four digits. -/
def yearTok4 : List Char → Option Nat
  | [c1, c2, c3, c4] =>
    (dval c1).bind (fun a => (dval c2).bind (fun b =>
      (dval c3).bind (fun c => (dval c4).map (fun d =>
        1000 * a + 100 * b + 10 * c + d))))
  | _ => none

/-- CPython two-digit-year pivot: 00-68 -> 2000-2068, 69-99 -> 1969-1999. -/
def pivotYear (y2 : Nat) : Nat := if y2 ≤ 68 then 2000 + y2 else 1900 + y2

/-- Proleptic Gregorian leap-year rule, as used by `datetime`. -/
def isLeap (y : Nat) : Bool := (y % 4 == 0 && y % 100 != 0) || y % 400 == 0

/-- Number of days of a month (month `1`-`12`). -/
def daysInMonth (y m : Nat) : Nat :=
  if m == 2 then (if isLeap y then 29 else 28)
  else if m == 4 || m == 6 || m == 9 || m == 11 then 30 else 31

/-- Model of `datetime.strptime(s, '%m/%d/%y')` (`twoDigit = true`) and of
`datetime.strptime(s, '%m/%d/%Y')` (`twoDigit = false`), returning the
`(year, month, day)` of the resulting `datetime`, or `none` for the
`ValueError` the source catches. -/
def strptimeMDY (s : List Char) (twoDigit : Bool) : Option (Nat × Nat × Nat) :=
  match splitSlash s with
  | [ms, ds, ys] =>
    (monthTok ms).bind (fun m => (dayTok ds).bind (fun d =>
      (if twoDigit then (yearTok2 ys).map pivotYear else yearTok4 ys).bind (fun y =>
        if 1 ≤ y ∧ d ≤ daysInMonth y m then some (y, m, d) else none)))
  | _ => none

/-- Digit character of a value `0`-`9`. -/
def digitChar : Nat → Char
  | 0 => '0' | 1 => '1' | 2 => '2' | 3 => '3' | 4 => '4'
  | 5 => '5' | 6 => '6' | 7 => '7' | 8 => '8' | _ => '9'

/-- Two-digit zero-padded rendering, as `strftime` produces for `%m`, `%d`. -/
def pad2 (n : Nat) : List Char :=
  if n < 10 then ['0', digitChar n] else [digitChar (n / 10), digitChar (n % 10)]

/-- Four-digit rendering of a year `1000`-`9999` (on this range `strftime`'s
`%Y` prints exactly these four digits). -/
def year4 (y : Nat) : List Char :=
  [digitChar (y / 1000 % 10), digitChar (y / 100 % 10), digitChar (y / 10 % 10), digitChar (y % 10)]

/-- Model of `date_obj.strftime('%m/%d/%Y')` for years at least 1000 (the
only years the program's theorems format). -/
def strftimeMDY (y m d : Nat) : List Char :=
  pad2 m ++ '/' :: (pad2 d ++ '/' :: year4 y)

/-- Format-selection and parse step of the source's date coercion: try
`%m/%d/%y` when the token after the last `/` has two characters, else
`%m/%d/%Y`. -/
def dateBranch (value : List Char) : Option (Nat × Nat × Nat) :=
  strptimeMDY value ((lastTok value).length == 2)

/-- Date coercion of `extract_pdf_data` (lines 78-88): on a successful
parse the value becomes the canonical `%m/%d/%Y` rendering; on a
`ValueError` the original string is kept. -/
def coerceDate (value : List Char) : List Char :=
  match dateBranch value with
  | some (y, m, d) => strftimeMDY y m d
  | none => value

/-! ## Python `float()` acceptance -/

/-- Model of Python `float()` acceptance, restricted to strings over
digits, dots and commas — the only strings the program passes to `float`
(`[\d,]+\.\d{2}` with commas removed, and `[\d.]+` captures): such a
string is accepted exactly when it contains at least one digit, at most
one dot, and nothing else. -/
def pyFloatAccepts (s : List Char) : Bool :=
  s.any digitB && (s.countP (fun c => c == '.') ≤ 1 : Bool) && s.all digitDotB

/-! ## The field extractor

`extract_pdf_data` takes the decoded first-page text (`none` models the
collaborator failures the outer `try` catches before any field work: an
unreadable PDF, or `extract_text()` returning `None`, on which the first
`re.search` raises `TypeError`).  It returns the record — `none` when the
source function returns `None` — together with the warning/error events it
logs (info events are not modeled). -/

/-- Field names of the record, in the source's dictionary order. -/
inductive FieldName where
  | taskOrder | totalAmount | feederId | miles | workOrders | startDate | endDate
deriving DecidableEq, Repr

/-- Warning and error log events of one extraction. -/
inductive LogEvent where
  | warnNoContractor
  | warnFieldMissing (f : FieldName)
  | errorDateParse (v : List Char)
  | errorProcessing
deriving DecidableEq, Repr

/-- Severity levels of the logging collaborator. -/
inductive LogLevel where
  | warning | error
deriving DecidableEq, Repr

/-- Severity of each modeled event, matching the `logging.warning` /
`logging.error` call that emits it in the source. -/
def LogEvent.level : LogEvent → LogLevel
  | .warnNoContractor => .warning
  | .warnFieldMissing _ => .warning
  | .errorDateParse _ => .error
  | .errorProcessing => .error

/-- Record produced by one extraction: each field optional, numeric values
represented by their accepted token, the work-order count by its integer
value. -/
structure Record where
  contractor : Option (List Char)
  taskOrder : Option (List Char)
  totalAmount : Option (List Char)
  feederId : Option (List Char)
  miles : Option (List Char)
  workOrders : Option Nat
  startDate : Option (List Char)
  endDate : Option (List Char)
deriving DecidableEq, Repr

/-- Model of `extract_contractor_name` (lines 19-31): try the three
contractor patterns in order, case-insensitively, and return the first
match stripped; `None` when none matches. -/
def extract_contractor_name (text : List Char) : Option (List Char) :=
  match reSearch RE.eps xpertCap RE.eps text with
  | some m => some (pyStrip m)
  | none =>
    match reSearch RE.eps ceresCap RE.eps text with
    | some m => some (pyStrip m)
    | none =>
      match reSearch RE.eps wrightCap RE.eps text with
      | some m => some (pyStrip m)
      | none => none

/-- Processing of a plain string field (Task Order #, Feeder ID): the
stripped match, or a missing-field warning. -/
def fieldStr (f : FieldName) (res : Option (List Char)) :
    Option (List Char) × List LogEvent :=
  match res with
  | some v => (some (pyStrip v), [])
  | none => (none, [LogEvent.warnFieldMissing f])

/-- Processing of a float field.  `commas` is true for Total Amount, whose
value is `float(value.replace(',', ''))`.  The outer `none` models the
uncaught `ValueError` of `float()`, which aborts the whole document. -/
def fieldFloat (f : FieldName) (commas : Bool) (res : Option (List Char)) :
    Option (Option (List Char) × List LogEvent) :=
  match res with
  | none => some (none, [LogEvent.warnFieldMissing f])
  | some v =>
    let v1 := if commas then stripCommas (pyStrip v) else pyStrip v
    if pyFloatAccepts v1 then some (some v1, []) else none

/-- Processing of the # of Work Orders field: `int()` on a `\d+` match,
which always succeeds. -/
def fieldInt (f : FieldName) (res : Option (List Char)) :
    Option Nat × List LogEvent :=
  match res with
  | some v => (some (digitsToNat (pyStrip v)), [])
  | none => (none, [LogEvent.warnFieldMissing f])

/-- Processing of a date field: the coercion of lines 78-88 applied to the
stripped match.  On a parse failure the raw text is kept and the error is
logged; the field is never dropped. -/
def fieldDate (f : FieldName) (res : Option (List Char)) :
    Option (List Char) × List LogEvent :=
  match res with
  | none => (none, [LogEvent.warnFieldMissing f])
  | some v =>
    let v1 := pyStrip v
    match dateBranch v1 with
    | some (y, m, d) => (some (strftimeMDY y m d), [])
    | none => (some v1, [LogEvent.errorDateParse v1])

/-- Field-loop body of `extract_pdf_data` on decoded text: the seven
labeled patterns in dictionary order, with the contractor resolved first.
A `float()` failure aborts the whole document with the top-level error
(the Python exception propagates to the outer handler). -/
def extractFromText (text : List Char) : Option Record × List LogEvent :=
  let pC :=
    match extract_contractor_name text with
    | some n => (some n, ([] : List LogEvent))
    | none => (none, [LogEvent.warnNoContractor])
  let pT := fieldStr .taskOrder (reSearch taskOrderPre taskOrderCap RE.eps text)
  match fieldFloat .totalAmount true (reSearch amountPre amountCap RE.eps text) with
  | none => (none, pC.2 ++ pT.2 ++ [LogEvent.errorProcessing])
  | some pA =>
    let pF := fieldStr .feederId (reSearch feederPre feederCap RE.eps text)
    match fieldFloat .miles false (reSearch milesPre milesCap milesPost text) with
    | none => (none, pC.2 ++ pT.2 ++ pA.2 ++ pF.2 ++ [LogEvent.errorProcessing])
    | some pM =>
      let pW := fieldInt .workOrders (reSearch woPre woCap woPost text)
      let pS := fieldDate .startDate (reSearch (datePre "Start Date") dateCap RE.eps text)
      let pE := fieldDate .endDate (reSearch (datePre "End Date") dateCap RE.eps text)
      (some { contractor := pC.1, taskOrder := pT.1, totalAmount := pA.1,
              feederId := pF.1, miles := pM.1, workOrders := pW.1,
              startDate := pS.1, endDate := pE.1 },
       pC.2 ++ pT.2 ++ pA.2 ++ pF.2 ++ pM.2 ++ pW.2 ++ pS.2 ++ pE.2)

/-- Model of `extract_pdf_data` (lines 33-97). -/
def extract_pdf_data (decoded : Option (List Char)) : Option Record × List LogEvent :=
  match decoded with
  | none => (none, [LogEvent.errorProcessing])
  | some text => extractFromText text

/-! ## The store merger

`update_excel` is modeled as a function from the extracted record and the
current persisted store (`none` = the file does not exist) to the
persisted store after the call.  Every failure inside the source's `try`
is caught and leaves the file as it was, which the model returns the
input for.  A date cell of a stored row is a datetime (what
`pd.to_datetime` wrote on the insert that created the row), an empty cell,
or — for a store not produced by this program — raw text. -/

/-- Cell of the `Task Order Start Date` column. -/
inductive DateCell where
  | empty
  | dt (d : Nat)
  | text (s : List Char)
deriving DecidableEq, Repr

/-- Row of the store, one cell per column of the fixed schema. -/
structure Row where
  taskOrder : Option (List Char)
  contractor : Option (List Char)
  totalAmount : Option (List Char)
  feederId : Option (List Char)
  miles : Option (List Char)
  workOrders : Option Nat
  startDate : DateCell
  endDate : Option (List Char)
deriving DecidableEq, Repr

/-- Row appended for a record: the record's cells, a missing field an
empty cell (`NaN`), the start date the record's string. -/
def rowOfRecord (data : Record) : Row :=
  { taskOrder := data.taskOrder
    contractor := data.contractor
    totalAmount := data.totalAmount
    feederId := data.feederId
    miles := data.miles
    workOrders := data.workOrders
    startDate := match data.startDate with
      | none => DateCell.empty
      | some s => DateCell.text s
    endDate := data.endDate }

/-- Python truthiness of `data.get('Task Order #')`: present and a
non-empty string. -/
def taskOrderTruthy : Option (List Char) → Bool
  | none => false
  | some s => !s.isEmpty

/-- Model of `astype(str)` on a key cell: a missing value (`NaN`) prints
as the string `nan`. -/
def rowKeyStr : Option (List Char) → List Char
  | none => "nan".toList
  | some s => s

/-- Calendar date encoded as one natural number; the encoding is strictly
monotone in (year, month, day) for the in-range months and days the
parsers accept. -/
def encodeYMD (y m d : Nat) : Nat := y * 10000 + m * 100 + d

/-- Model of `pd.to_datetime` on one string cell, restricted to the
strings this program writes into the column (its canonical
`MM/DD/YYYY` renderings; the raw date strings kept by a failed coercion
have an out-of-range month or day, which pandas rejects just as this
model does). -/
def pdParseDate (s : List Char) : Option Nat :=
  (strptimeMDY s false).map (fun v => encodeYMD v.1 v.2.1 v.2.2)

/-- Model of `pd.to_datetime` on one cell of the column: datetimes pass
through, an empty cell becomes `NaT`, a string cell must parse. -/
def pdToDatetimeCell : DateCell → Option DateCell
  | .empty => some .empty
  | .dt d => some (.dt d)
  | .text s => (pdParseDate s).map DateCell.dt

/-- Conversion of the whole `Task Order Start Date` column, as
`df['Task Order Start Date'] = pd.to_datetime(...)` does: every cell is
rewritten, the first unparseable cell raises. -/
def convertRows : List Row → Option (List Row)
  | [] => some []
  | r :: rs =>
    match pdToDatetimeCell r.startDate with
    | none => none
    | some c => (convertRows rs).map (fun rest => { r with startDate := c } :: rest)

/-- Sort rank of a date cell: missing dates (`NaT`) rank below every
datetime, which under the non-increasing order places them last, exactly
where `sort_values(ascending=False)` puts them (`na_position='last'`). -/
def rankCell : DateCell → Nat
  | .empty => 0
  | .text _ => 0
  | .dt d => d + 1

/-- Order in which `sort_values('Task Order Start Date', ascending=False)`
leaves the rows: non-increasing rank of the start-date cell. -/
def rowGeRel (a b : Row) : Prop := rankCell b.startDate ≤ rankCell a.startDate

instance : DecidableRel rowGeRel := fun _ _ => Nat.decLe _ _

instance : IsTotal Row rowGeRel :=
  ⟨fun a b => Nat.le_total (rankCell b.startDate) (rankCell a.startDate)⟩

instance : IsTrans Row rowGeRel :=
  ⟨fun _ _ _ h1 h2 => Nat.le_trans h2 h1⟩

/-- Model of `update_excel` (lines 99-132): load the store or initialize
it empty, append the record unless its key is falsy or already present,
re-parse and re-sort the start-date column, and persist; any exception
leaves the file unchanged. -/
def update_excel (data : Record) (file : Option (List Row)) : Option (List Row) :=
  let df := file.getD []
  if taskOrderTruthy data.taskOrder
      && !(df.any (fun r => rowKeyStr r.taskOrder == data.taskOrder.getD [])) then
    match convertRows (df ++ [rowOfRecord data]) with
    | none => file
    | some rows => some (List.insertionSort rowGeRel rows)
  else file

/-- Column list of the store as created by the source (lines 103-107). -/
def store_columns : List String :=
  ["Task Order #", "Contractor", "Total Amount", "Feeder ID",
   "Feeder Total Miles", "# of Work Orders",
   "Task Order Start Date", "Task Order End Date"]

/-- Modelled from the spec: the field order its data model (§3) lists,
which the claim says is the store's column order. -/
def spec_section3_columns : List String :=
  ["Contractor", "Task Order #", "Total Amount", "Feeder ID",
   "Feeder Total Miles", "# of Work Orders",
   "Task Order Start Date", "Task Order End Date"]

/-- Date cells the program itself ever persists into the store: the
datetime written by `pd.to_datetime` on insert, or an empty cell.  A raw
text cell can occur only in a store file produced outside the program. -/
def vettedCell : DateCell → Bool
  | .text _ => false
  | _ => true

/-! ## Concrete inputs used by witnesses and counterexamples -/

/-- Record with no `Task Order #` at all. -/
def cexKeylessRec : Record :=
  { contractor := none, taskOrder := none, totalAmount := none, feederId := none,
    miles := none, workOrders := none, startDate := none, endDate := none }

/-- Record of the spec's Scenario A (after extraction). -/
def wData : Record :=
  { contractor := some "Ceres Environmental Services, Inc.".toList,
    taskOrder := some "TO-2024-001".toList,
    totalAmount := some "12500.00".toList,
    feederId := some "1234-56".toList,
    miles := some "3.5".toList,
    workOrders := some 7,
    startDate := some "01/15/2024".toList,
    endDate := some "02/15/2024".toList }

/-- Stored row with a distinct key and an earlier datetime than `wData`. -/
def wRowOld : Row :=
  { taskOrder := some "TO-2023-009".toList,
    contractor := some "Ceres Environmental Services, Inc.".toList,
    totalAmount := some "100.00".toList,
    feederId := some "1234-11".toList,
    miles := some "1.5".toList,
    workOrders := some 2,
    startDate := DateCell.dt (encodeYMD 2023 6 1),
    endDate := some "07/01/2023".toList }

/-! ## Predicates and claim-level forms used by the theorems -/

/-- Condition under which the Total Amount coercion
`float(value.replace(',', ''))` raises: the pattern matched but the
stripped capture is not an acceptable `float()` literal. -/
def amountCoerceFails (text : List Char) : Prop :=
  ∃ v, reSearch amountPre amountCap RE.eps text = some v ∧
    pyFloatAccepts (stripCommas (pyStrip v)) = false

/-- Condition under which the Feeder Total Miles coercion `float(value)`
raises: the pattern matched but the capture is not an acceptable
`float()` literal (e.g. `1.2.3` or `.`). -/
def milesCoerceFails (text : List Char) : Prop :=
  ∃ v, reSearch milesPre milesCap milesPost text = some v ∧
    pyFloatAccepts (pyStrip v) = false

/-- Language of an `RE`: the strings one front-anchored match can
consume.  Used to state soundness of the matcher. -/
def Lang : RE → List Char → Prop
  | .eps, t => t = []
  | .lit l, t => List.Forall₂ (fun a b => ciCharEq a b = true) t l
  | .seq a b, t => ∃ t1 t2, t = t1 ++ t2 ∧ Lang a t1 ∧ Lang b t2
  | .alt a b, t => Lang a t ∨ Lang b t
  | .opt a, t => Lang a t ∨ t = []
  | .star p, t => t.all p = true
  | .plus p, t => t ≠ [] ∧ t.all p = true
  | .rep n p, t => t.length = n ∧ t.all p = true

/-- Validity of a calendar date as `datetime` checks it (month `1`-`12`,
day within the month's length, proleptic Gregorian). -/
def validDate (y m d : Nat) : Prop :=
  1 ≤ m ∧ m ≤ 12 ∧ 1 ≤ d ∧ d ≤ daysInMonth y m

instance (y m d : Nat) : Decidable (validDate y m d) := by
  unfold validDate
  infer_instance

/-- Two-digit-year textual form `MM/DD/YY` of a calendar date. -/
def twoDigitForm (y m d : Nat) : List Char :=
  pad2 m ++ '/' :: (pad2 d ++ '/' :: pad2 (y % 100))

/-- Four-digit-year textual form `MM/DD/YYYY` of a calendar date. -/
def fourDigitForm (y m d : Nat) : List Char :=
  pad2 m ++ '/' :: (pad2 d ++ '/' :: year4 y)

/-- Decoded text on which the whole extraction aborts although decoding
succeeded: the miles capture is `.`, which `float()` rejects. -/
def cexMilesText : List Char := "Length:. overhead miles".toList

/-- Decoded text whose start-date capture `02/30/24` and end-date capture
`13/05/24` each fail both date formats (February 30th and month 13 do not
exist). -/
def wBadDateText : List Char := "Start Date: 02/30/24 End Date: 13/05/24".toList

/-- Decoded text matching the second contractor pattern only, in
lowercase, to witness case-insensitive first-match resolution. -/
def wCeresText : List Char := "ceres environmental services, inc".toList

/-- Decoded text with a well-formed Total Amount. -/
def wAmountText : List Char := "Task Order Total Amount: $12,500.00".toList

/-! ## Helper lemmas about the merger -/

theorem update_excel_cond_false {data : Record} {file : Option (List Row)}
    (h : (taskOrderTruthy data.taskOrder &&
      !((file.getD []).any fun r => rowKeyStr r.taskOrder == data.taskOrder.getD [])) = false) :
    update_excel data file = file := by
  simp only [update_excel, h, Bool.false_eq_true, if_false]

theorem update_excel_convert_none {data : Record} {file : Option (List Row)}
    (hc : (taskOrderTruthy data.taskOrder &&
      !((file.getD []).any fun r => rowKeyStr r.taskOrder == data.taskOrder.getD [])) = true)
    (hcv : convertRows (file.getD [] ++ [rowOfRecord data]) = none) :
    update_excel data file = file := by
  simp only [update_excel, hc, if_true, hcv]

theorem update_excel_convert_some {data : Record} {file : Option (List Row)} {rows : List Row}
    (hc : (taskOrderTruthy data.taskOrder &&
      !((file.getD []).any fun r => rowKeyStr r.taskOrder == data.taskOrder.getD [])) = true)
    (hcv : convertRows (file.getD [] ++ [rowOfRecord data]) = some rows) :
    update_excel data file = some (List.insertionSort rowGeRel rows) := by
  simp only [update_excel, hc, if_true, hcv]

theorem convertRows_append (a b : List Row) :
    convertRows (a ++ b) =
      (convertRows a).bind (fun la => (convertRows b).map (fun lb => la ++ lb)) := by
  induction a with
  | nil =>
    simp only [List.nil_append, convertRows]
    cases convertRows b <;> rfl
  | cons r rs ih =>
    cases hc : pdToDatetimeCell r.startDate with
    | none => simp [convertRows, hc]
    | some c =>
      cases hrs : convertRows rs with
      | none =>
        have hab : convertRows (rs ++ b) = none := by rw [ih, hrs]; rfl
        simp [convertRows, hc, hrs, hab]
      | some la =>
        cases hb : convertRows b with
        | none =>
          have hab : convertRows (rs ++ b) = none := by rw [ih, hrs, hb]; rfl
          simp [convertRows, hc, hrs, hb, hab]
        | some lb =>
          have hab : convertRows (rs ++ b) = some (la ++ lb) := by rw [ih, hrs, hb]; rfl
          simp [convertRows, hc, hrs, hb, hab]

theorem pdToDatetimeCell_vetted {c : DateCell} (h : vettedCell c = true) :
    pdToDatetimeCell c = some c := by
  cases c <;> simp_all [vettedCell, pdToDatetimeCell]

theorem convertRows_id_of_vetted {rows : List Row}
    (h : ∀ r ∈ rows, vettedCell r.startDate = true) :
    convertRows rows = some rows := by
  induction rows with
  | nil => rfl
  | cons r rs ih =>
    have hr := pdToDatetimeCell_vetted (h r (by simp))
    simp only [convertRows, hr, ih (fun x hx => h x (by simp [hx]))]
    rfl

theorem convertRows_map_taskOrder {l l' : List Row} (h : convertRows l = some l') :
    l'.map Row.taskOrder = l.map Row.taskOrder := by
  induction l generalizing l' with
  | nil => simp [convertRows] at h; subst h; rfl
  | cons r rs ih =>
    simp only [convertRows] at h
    cases hc : pdToDatetimeCell r.startDate with
    | none => simp [hc] at h
    | some c =>
      simp only [hc] at h
      cases hr : convertRows rs with
      | none => simp [hr] at h
      | some rest =>
        simp only [hr] at h
        simp only [Option.map] at h
        cases h
        simp [ih hr]

/-! ## Claims about the merger -/

/-- C1, counterexample: a record with no `Task Order #` is NOT appended —
merging it into the empty store leaves the store empty, because the falsy
key makes `if task_order and not ...` take the no-op branch. -/
theorem keyless_record_not_appended_cex :
    cexKeylessRec.taskOrder = none ∧ update_excel cexKeylessRec (some []) = some [] := by
  constructor
  · rfl
  · rfl

/-- C1, amended: for every record whose `Task Order #` is absent (or an
empty string, i.e. falsy), `update_excel` is a no-op: the record is never
appended and the store file is left exactly as it was. -/
theorem keyless_record_merge_noop (data : Record) (file : Option (List Row))
    (h : taskOrderTruthy data.taskOrder = false) :
    update_excel data file = file :=
  update_excel_cond_false (by simp [h])

/-- Witness for `keyless_record_merge_noop` at a concrete keyless record. -/
theorem keyless_record_merge_noop_witness :
    taskOrderTruthy cexKeylessRec.taskOrder = false ∧
      update_excel cexKeylessRec (some [wRowOld]) = some [wRowOld] :=
  ⟨by decide, keyless_record_merge_noop cexKeylessRec (some [wRowOld]) (by decide)⟩

/-- C2: merging a record carrying a non-empty `Task Order #` twice in
succession yields the same store as merging it once — the second call
finds the key already present (or fails identically) and leaves the
persisted store unchanged. -/
theorem merge_idempotent (data : Record) (file : Option (List Row)) (k : List Char)
    (hk : data.taskOrder = some k) (_hne : k ≠ []) :
    update_excel data (update_excel data file) = update_excel data file := by
  cases hc : (taskOrderTruthy data.taskOrder &&
      !((file.getD []).any fun r => rowKeyStr r.taskOrder == data.taskOrder.getD [])) with
  | false =>
    rw [update_excel_cond_false hc]
    exact update_excel_cond_false hc
  | true =>
    cases hcv : convertRows (file.getD [] ++ [rowOfRecord data]) with
    | none =>
      rw [update_excel_convert_none hc hcv]
      exact update_excel_convert_none hc hcv
    | some rows =>
      have h1 := update_excel_convert_some hc hcv
      have hmem : ∃ r ∈ List.insertionSort rowGeRel rows, r.taskOrder = some k := by
        have hmap := convertRows_map_taskOrder hcv
        have hkmem : some k ∈ rows.map Row.taskOrder := by
          rw [hmap]
          simp [rowOfRecord, hk]
        obtain ⟨r, hr, hrk⟩ := List.mem_map.1 hkmem
        exact ⟨r, (List.mem_insertionSort rowGeRel).2 hr, hrk⟩
      have hcond2 : (taskOrderTruthy data.taskOrder &&
          !(((update_excel data file).getD []).any
            fun r => rowKeyStr r.taskOrder == data.taskOrder.getD [])) = false := by
        rw [h1]
        obtain ⟨r, hr, hrk⟩ := hmem
        have hany : (List.insertionSort rowGeRel rows).any
            (fun r => rowKeyStr r.taskOrder == data.taskOrder.getD []) = true := by
          rw [List.any_eq_true]
          refine ⟨r, hr, ?_⟩
          rw [hrk, hk]
          simp [rowKeyStr]
        simp [hany]
      rw [h1] at hcond2 ⊢
      exact update_excel_cond_false hcond2

/-- Witness for `merge_idempotent` at the Scenario A record and a
one-row store. -/
theorem merge_idempotent_witness :
    wData.taskOrder = some "TO-2024-001".toList ∧
      update_excel wData (update_excel wData (some [wRowOld])) =
        update_excel wData (some [wRowOld]) :=
  ⟨rfl, merge_idempotent wData (some [wRowOld]) "TO-2024-001".toList rfl (by decide)⟩

/-- C3: a merge that changes the persisted store (i.e. successfully
appends a row) leaves the rows in non-increasing order of the parsed
`Task Order Start Date`, rows without a date ranking below every dated
row (pandas puts `NaT` last under `ascending=False`). -/
theorem merge_sorted_desc (data : Record) (file : Option (List Row))
    (h : update_excel data file ≠ file) :
    ∃ l, update_excel data file = some l ∧ List.Sorted rowGeRel l := by
  cases hc : (taskOrderTruthy data.taskOrder &&
      !((file.getD []).any fun r => rowKeyStr r.taskOrder == data.taskOrder.getD [])) with
  | false => exact absurd (update_excel_cond_false hc) h
  | true =>
    cases hcv : convertRows (file.getD [] ++ [rowOfRecord data]) with
    | none => exact absurd (update_excel_convert_none hc hcv) h
    | some rows =>
      exact ⟨_, update_excel_convert_some hc hcv, List.sorted_insertionSort rowGeRel rows⟩

/-- Witness for `merge_sorted_desc`: inserting the Scenario A record into
a one-row store changes the store, and the result is sorted. -/
theorem merge_sorted_desc_witness :
    update_excel wData (some [wRowOld]) ≠ some [wRowOld] ∧
      ∃ l, update_excel wData (some [wRowOld]) = some l ∧ List.Sorted rowGeRel l :=
  ⟨by decide, merge_sorted_desc wData (some [wRowOld]) (by decide)⟩

/-- C9: a merge that changes a program-produced store (all stored start
dates are datetimes or empty) only appends the converted new row and
reorders: the result is a permutation of the old rows — each kept with
every field value intact — plus the new row. -/
theorem merge_appends_frame (data : Record) (rows : List Row)
    (hv : ∀ r ∈ rows, vettedCell r.startDate = true)
    (h : update_excel data (some rows) ≠ some rows) :
    ∃ l c, update_excel data (some rows) = some l ∧
      pdToDatetimeCell (rowOfRecord data).startDate = some c ∧
      l.Perm (rows ++ [{ rowOfRecord data with startDate := c }]) := by
  cases hc : (taskOrderTruthy data.taskOrder &&
      !(((some rows : Option (List Row)).getD []).any
        fun r => rowKeyStr r.taskOrder == data.taskOrder.getD [])) with
  | false => exact absurd (update_excel_cond_false hc) h
  | true =>
    cases hcv : convertRows ((some rows : Option (List Row)).getD [] ++ [rowOfRecord data]) with
    | none => exact absurd (update_excel_convert_none hc hcv) h
    | some rows2 =>
      have h1 := update_excel_convert_some hc hcv
      have hcv2 := hcv
      have hgetD : (some rows : Option (List Row)).getD [] = rows := rfl
      rw [hgetD, convertRows_append, convertRows_id_of_vetted hv] at hcv2
      cases hnc : pdToDatetimeCell (rowOfRecord data).startDate with
      | none =>
        have : convertRows [rowOfRecord data] = none := by simp [convertRows, hnc]
        rw [this] at hcv2
        simp at hcv2
      | some c =>
        have hone : convertRows [rowOfRecord data] =
            some [{ rowOfRecord data with startDate := c }] := by
          simp [convertRows, hnc]
        rw [hone] at hcv2
        simp only [Option.some_bind, Option.map_some'] at hcv2
        injection hcv2 with hcv3
        subst hcv3
        exact ⟨_, c, h1, rfl, List.perm_insertionSort rowGeRel _⟩

/-- Witness for `merge_appends_frame` at the Scenario A record and a
one-row vetted store. -/
theorem merge_appends_frame_witness :
    (∀ r ∈ [wRowOld], vettedCell r.startDate = true) ∧
      ∃ l c, update_excel wData (some [wRowOld]) = some l ∧
        pdToDatetimeCell (rowOfRecord wData).startDate = some c ∧
        l.Perm ([wRowOld] ++ [{ rowOfRecord wData with startDate := c }]) :=
  ⟨by decide, merge_appends_frame wData [wRowOld] (by decide) (by decide)⟩

/-- C7, counterexample: the store's column order is not the §3 field
order — the source puts `Task Order #` first and `Contractor` second. -/
theorem store_columns_ne_spec_cex : store_columns ≠ spec_section3_columns := by decide

/-- C7, amended: the store's fixed column order is `Task Order #`,
`Contractor`, `Total Amount`, `Feeder ID`, `Feeder Total Miles`,
`# of Work Orders`, `Task Order Start Date`, `Task Order End Date` — the
§3 field set (a permutation of the §3 order), but with the first two
columns swapped. -/
theorem store_columns_order :
    store_columns =
      ["Task Order #", "Contractor", "Total Amount", "Feeder ID",
       "Feeder Total Miles", "# of Work Orders",
       "Task Order Start Date", "Task Order End Date"] ∧
      store_columns.Perm spec_section3_columns := by
  refine ⟨rfl, ?_⟩
  decide

/-! ## Soundness of the matcher: consumed text lies in the pattern's language -/

theorem stripCI_sound {l s r : List Char} (h : stripCI l s = some r) :
    ∃ t, t ++ r = s ∧ Lang (RE.lit l) t := by
  induction l generalizing s with
  | nil =>
    cases h
    exact ⟨[], rfl, List.Forall₂.nil⟩
  | cons a ls ih =>
    cases s with
    | nil => cases h
    | cons c cs =>
      simp only [stripCI] at h
      split at h
      · obtain ⟨t, ht, hl⟩ := ih h
        exact ⟨c :: t, by simp [ht], List.Forall₂.cons (by assumption) hl⟩
      · cases h

theorem starM_sound {p : Char → Bool} {s r : List Char} (h : r ∈ starM p s) :
    ∃ t, t ++ r = s ∧ t.all p = true := by
  induction s with
  | nil =>
    simp [starM] at h
    subst h
    exact ⟨[], rfl, rfl⟩
  | cons c cs ih =>
    simp only [starM] at h
    by_cases hp : p c
    · rw [if_pos hp] at h
      rcases List.mem_append.1 h with h1 | h2
      · obtain ⟨t, ht, ha⟩ := ih h1
        exact ⟨c :: t, by simp [ht], by simp [hp, List.all_cons, ha]⟩
      · simp at h2
        subst h2
        exact ⟨[], rfl, rfl⟩
    · rw [if_neg hp] at h
      simp at h
      subst h
      exact ⟨[], rfl, rfl⟩

theorem plusM_sound {p : Char → Bool} {s r : List Char} (h : r ∈ plusM p s) :
    ∃ t, t ++ r = s ∧ t ≠ [] ∧ t.all p = true := by
  cases s with
  | nil => cases h
  | cons c cs =>
    simp only [plusM] at h
    by_cases hp : p c
    · rw [if_pos hp] at h
      obtain ⟨t, ht, ha⟩ := starM_sound h
      exact ⟨c :: t, by simp [ht], by simp, by simp [hp, List.all_cons, ha]⟩
    · rw [if_neg hp] at h
      cases h

theorem repM_sound {p : Char → Bool} {n : Nat} {s r : List Char}
    (h : repM p n s = some r) : ∃ t, t ++ r = s ∧ t.length = n ∧ t.all p = true := by
  induction n generalizing s with
  | zero =>
    cases h
    exact ⟨[], rfl, rfl, rfl⟩
  | succ k ih =>
    cases s with
    | nil => cases h
    | cons c cs =>
      simp only [repM] at h
      split at h
      · obtain ⟨t, ht, hn, ha⟩ := ih h
        exact ⟨c :: t, by simp [ht], by simp [hn], by simp [List.all_cons, ha]; assumption⟩
      · cases h

theorem mtc_sound (re : RE) : ∀ {s r : List Char}, r ∈ mtc re s →
    ∃ t, t ++ r = s ∧ Lang re t := by
  induction re with
  | eps =>
    intro s r h
    simp [mtc] at h
    subst h
    exact ⟨[], rfl, rfl⟩
  | lit l =>
    intro s r h
    simp only [mtc] at h
    cases hst : stripCI l s with
    | none => rw [hst] at h; cases h
    | some r2 =>
      rw [hst] at h
      simp at h
      subst h
      exact stripCI_sound hst
  | seq a b iha ihb =>
    intro s r h
    simp only [mtc] at h
    obtain ⟨r1, hr1, hr⟩ := List.mem_flatMap.1 h
    obtain ⟨t1, ht1, hl1⟩ := iha hr1
    obtain ⟨t2, ht2, hl2⟩ := ihb hr
    refine ⟨t1 ++ t2, ?_, ⟨t1, t2, rfl, hl1, hl2⟩⟩
    rw [List.append_assoc, ht2, ht1]
  | alt a b iha ihb =>
    intro s r h
    rcases List.mem_append.1 h with h1 | h2
    · obtain ⟨t, ht, hl⟩ := iha h1
      exact ⟨t, ht, Or.inl hl⟩
    · obtain ⟨t, ht, hl⟩ := ihb h2
      exact ⟨t, ht, Or.inr hl⟩
  | opt a iha =>
    intro s r h
    rcases List.mem_append.1 h with h1 | h2
    · obtain ⟨t, ht, hl⟩ := iha h1
      exact ⟨t, ht, Or.inl hl⟩
    · simp at h2
      subst h2
      exact ⟨[], rfl, Or.inr rfl⟩
  | star p =>
    intro s r h
    obtain ⟨t, ht, ha⟩ := starM_sound h
    exact ⟨t, ht, ha⟩
  | plus p =>
    intro s r h
    obtain ⟨t, ht, hne, ha⟩ := plusM_sound h
    exact ⟨t, ht, hne, ha⟩
  | rep n p =>
    intro s r h
    simp only [mtc] at h
    cases hrp : repM p n s with
    | none => rw [hrp] at h; cases h
    | some r2 =>
      rw [hrp] at h
      simp at h
      subst h
      obtain ⟨t, ht, hn, ha⟩ := repM_sound hrp
      exact ⟨t, ht, hn, ha⟩

theorem matchCapAt_sound {pre cap post : RE} {s v : List Char}
    (h : matchCapAt pre cap post s = some v) : Lang cap v := by
  unfold matchCapAt at h
  have hmem : v ∈ (mtc pre s).flatMap (fun r1 => (mtc cap r1).flatMap (fun r2 =>
      (mtc post r2).map (fun _ => r1.take (r1.length - r2.length)))) :=
    List.mem_of_mem_head? (by rw [h]; rfl)
  obtain ⟨r1, _, hv⟩ := List.mem_flatMap.1 hmem
  obtain ⟨r2, hr2, hv2⟩ := List.mem_flatMap.1 hv
  obtain ⟨r3, _, hveq⟩ := List.mem_map.1 hv2
  obtain ⟨t, ht, hl⟩ := mtc_sound cap hr2
  have htake : r1.take (r1.length - r2.length) = t := by
    rw [← ht, List.length_append, Nat.add_sub_cancel, List.take_left]
  rw [← hveq, htake]
  exact hl

theorem reSearch_sound {pre cap post : RE} {v : List Char} :
    ∀ {s : List Char}, reSearch pre cap post s = some v → Lang cap v := by
  intro s
  induction s with
  | nil =>
    intro h
    exact matchCapAt_sound h
  | cons c cs ih =>
    intro h
    simp only [reSearch] at h
    cases hm : matchCapAt pre cap post (c :: cs) with
    | none => rw [hm] at h; exact ih h
    | some w =>
      rw [hm] at h
      cases h
      exact matchCapAt_sound hm

/-! ## Character facts -/

theorem char_eq_of_cn_eq {c d : Char} (h : cn c = cn d) : c = d :=
  Char.ext (UInt32.ext h)

theorem lowerN_eq_of_lt {n v : Nat} (hv : v < 97) (h : lowerN n = v) : n = v := by
  unfold lowerN at h
  split at h <;> omega

theorem ciCharEq_dot {c : Char} (h : ciCharEq c '.' = true) : c = '.' := by
  have h1 : lowerN (cn c) = lowerN (cn '.') := by
    simpa [ciCharEq] using h
  have h3 : cn c = 46 := lowerN_eq_of_lt (by omega) (h1.trans (by decide))
  exact char_eq_of_cn_eq (h3.trans (by decide))

theorem ciCharEq_slash {c : Char} (h : ciCharEq c '/' = true) : c = '/' := by
  have h1 : lowerN (cn c) = lowerN (cn '/') := by
    simpa [ciCharEq] using h
  have h3 : cn c = 47 := lowerN_eq_of_lt (by omega) (h1.trans (by decide))
  exact char_eq_of_cn_eq (h3.trans (by decide))

theorem digitB_bounds {c : Char} (h : digitB c = true) : 48 ≤ cn c ∧ cn c ≤ 57 := by
  simpa [digitB, Bool.and_eq_true, decide_eq_true_eq] using h

theorem digitCommaB_bounds {c : Char} (h : digitCommaB c = true) :
    43 ≤ cn c ∧ cn c ≤ 57 := by
  simp only [digitCommaB, Bool.or_eq_true] at h
  rcases h with h1 | h2
  · have := digitB_bounds h1
    omega
  · rw [eq_of_beq h2]
    decide

theorem digitDotB_bounds {c : Char} (h : digitDotB c = true) :
    43 ≤ cn c ∧ cn c ≤ 57 := by
  simp only [digitDotB, Bool.or_eq_true] at h
  rcases h with h1 | h2
  · have := digitB_bounds h1
    omega
  · rw [eq_of_beq h2]
    decide

theorem pyWs_eq_false {c : Char} (h : 43 ≤ cn c ∧ cn c ≤ 57) : pyWs c = false := by
  simp only [pyWs, Bool.or_eq_false_iff]
  refine ⟨⟨⟨⟨⟨?_, ?_⟩, ?_⟩, ?_⟩, ?_⟩, ?_⟩ <;> simp [Nat.beq_eq_true_eq] <;> omega

theorem digit_ne_dot {c : Char} (h : digitB c = true) : (c == '.') = false := by
  cases hb : c == '.' with
  | false => rfl
  | true =>
    rw [eq_of_beq hb] at h
    exact absurd h (by decide)

theorem digit_ne_comma {c : Char} (h : digitB c = true) : (c == ',') = false := by
  cases hb : c == ',' with
  | false => rfl
  | true =>
    rw [eq_of_beq hb] at h
    exact absurd h (by decide)

theorem digitB_digitDot {c : Char} (h : digitB c = true) : digitDotB c = true := by
  simp [digitDotB, h]

/-! ## Where strip and filter are the identity -/

theorem dropWhile_eq_self_of {p : Char → Bool} {l : List Char}
    (h : ∀ c ∈ l, p c = false) : l.dropWhile p = l := by
  cases l with
  | nil => rfl
  | cons c cs =>
    rw [List.dropWhile_cons, if_neg]
    simp [h c (by simp)]

theorem pyStrip_eq_self {l : List Char} (h : ∀ c ∈ l, pyWs c = false) :
    pyStrip l = l := by
  unfold pyStrip
  rw [dropWhile_eq_self_of h,
    dropWhile_eq_self_of (fun c hc => h c (List.mem_reverse.1 hc)),
    List.reverse_reverse]

/-! ## Shape of the Total Amount capture -/

theorem filtered_amount_digits {t1 : List Char} (hall1 : t1.all digitCommaB = true) :
    ∀ c ∈ t1.filter (fun c => !(c == ',')), digitB c = true := by
  intro c hcf
  obtain ⟨hc1, hcq⟩ := List.mem_filter.1 hcf
  have hdc := List.all_eq_true.1 hall1 c hc1
  simp only [digitCommaB, Bool.or_eq_true] at hdc
  rcases hdc with hd | hcm
  · exact hd
  · rw [hcm] at hcq
    cases hcq

theorem amountCap_shape {t : List Char} (h : Lang amountCap t) :
    pyFloatAccepts (stripCommas (pyStrip t)) = true := by
  simp only [amountCap, Lang] at h
  obtain ⟨t1, t23, rfl, ⟨hne, hall1⟩, t2, t4, rfl, hlit, hlen4, hall4⟩ := h
  cases hlit with
  | cons hc htail =>
    cases htail
    rw [ciCharEq_dot hc]
    have hform : t1 ++ ['.'] ++ t4 = t1 ++ '.' :: t4 := by simp
    have hnoWs : ∀ ch ∈ t1 ++ '.' :: t4, pyWs ch = false := by
      intro ch hch
      rcases List.mem_append.1 hch with h1 | h2
      · exact pyWs_eq_false (digitCommaB_bounds (List.all_eq_true.1 hall1 ch h1))
      · rcases List.mem_cons.1 h2 with rfl | h3
        · decide
        · have := digitB_bounds (List.all_eq_true.1 hall4 ch h3)
          exact pyWs_eq_false (by omega)
    rw [List.singleton_append, pyStrip_eq_self hnoWs]
    unfold stripCommas
    rw [List.filter_append, List.filter_cons]
    have hdot : (!('.' == ',')) = true := by decide
    rw [if_pos hdot]
    have ht4id : t4.filter (fun c => !(c == ',')) = t4 :=
      List.filter_eq_self.2 (fun c hc => by
        rw [digit_ne_comma (List.all_eq_true.1 hall4 c hc)]
        rfl)
    rw [ht4id]
    obtain ⟨d1, d2, rfl⟩ := List.length_eq_two.1 hlen4
    have hd1 : digitB d1 = true := List.all_eq_true.1 hall4 d1 (by simp)
    have hd2 : digitB d2 = true := List.all_eq_true.1 hall4 d2 (by simp)
    have ht1' := filtered_amount_digits hall1
    have hany : (t1.filter (fun c => !(c == ',')) ++ '.' :: [d1, d2]).any digitB = true := by
      rw [List.any_eq_true]
      exact ⟨d1, by simp, hd1⟩
    have hcount : (t1.filter (fun c => !(c == ',')) ++ '.' :: [d1, d2]).countP
        (fun c => c == '.') = 1 := by
      rw [List.countP_append, List.countP_cons_of_pos _ _ (by simp)]
      have hz1 : (t1.filter (fun c => !(c == ','))).countP (fun c => c == '.') = 0 := by
        rw [List.countP_eq_zero]
        intro c hc
        rw [digit_ne_dot (ht1' c hc)]
        simp
      have hz2 : ([d1, d2] : List Char).countP (fun c => c == '.') = 0 := by
        rw [List.countP_eq_zero]
        intro c hc
        rcases List.mem_cons.1 hc with rfl | hc2
        · rw [digit_ne_dot hd1]
          simp
        · simp at hc2
          subst hc2
          rw [digit_ne_dot hd2]
          simp
      rw [hz1, hz2]
    have hall : (t1.filter (fun c => !(c == ',')) ++ '.' :: [d1, d2]).all digitDotB = true := by
      rw [List.all_eq_true]
      intro c hc
      rcases List.mem_append.1 hc with h1 | h2
      · exact digitB_digitDot (ht1' c h1)
      · rcases List.mem_cons.1 h2 with rfl | h3
        · decide
        · rcases List.mem_cons.1 h3 with rfl | h4
          · exact digitB_digitDot hd1
          · simp at h4
            subst h4
            exact digitB_digitDot hd2
    simp [pyFloatAccepts, hany, hcount, hall]

/-! ## Claims about the extractor: Total Amount coercion -/

/-- C10: whenever the Total Amount pattern matches, the captured string
has the shape `[\d,]+\.\d{2}`, so after removing commas it is always an
acceptable `float()` literal — the coercion-failure branch is unreachable
for this field. -/
theorem amount_coercion_total (text : List Char) :
    (∀ v, reSearch amountPre amountCap RE.eps text = some v →
      pyFloatAccepts (stripCommas (pyStrip v)) = true) ∧
    fieldFloat FieldName.totalAmount true (reSearch amountPre amountCap RE.eps text) ≠
      none := by
  constructor
  · intro v hv
    exact amountCap_shape (reSearch_sound hv)
  · cases hv : reSearch amountPre amountCap RE.eps text with
    | none => simp [fieldFloat]
    | some v =>
      have hacc := amountCap_shape (reSearch_sound hv)
      simp [fieldFloat, hacc]

/-- Witness for `amount_coercion_total` on a concrete matching text. -/
theorem amount_coercion_total_witness :
    reSearch amountPre amountCap RE.eps wAmountText = some "12,500.00".toList ∧
      pyFloatAccepts (stripCommas (pyStrip "12,500.00".toList)) = true :=
  ⟨by decide, (amount_coercion_total wAmountText).1 _ (by decide)⟩

/-! ## Characterizing whole-document failure -/

theorem fieldFloat_eq_none_iff {f : FieldName} {commas : Bool} {res : Option (List Char)} :
    fieldFloat f commas res = none ↔
      ∃ v, res = some v ∧
        pyFloatAccepts (if commas then stripCommas (pyStrip v) else pyStrip v) = false := by
  cases res with
  | none => simp [fieldFloat]
  | some v =>
    simp only [fieldFloat]
    by_cases hacc : pyFloatAccepts (if commas then stripCommas (pyStrip v) else pyStrip v) = true
    · simp [hacc]
    · simp only [Bool.not_eq_true] at hacc
      simp [hacc]

theorem fieldFloat_amount_none_iff {text : List Char} :
    fieldFloat FieldName.totalAmount true (reSearch amountPre amountCap RE.eps text) = none ↔
      amountCoerceFails text := by
  rw [fieldFloat_eq_none_iff]
  unfold amountCoerceFails
  simp

theorem fieldFloat_miles_none_iff {text : List Char} :
    fieldFloat FieldName.miles false (reSearch milesPre milesCap milesPost text) = none ↔
      milesCoerceFails text := by
  rw [fieldFloat_eq_none_iff]
  unfold milesCoerceFails
  simp

theorem extractFromText_none_iff (text : List Char) :
    (extractFromText text).1 = none ↔ amountCoerceFails text ∨ milesCoerceFails text := by
  unfold extractFromText
  cases hA : fieldFloat FieldName.totalAmount true
      (reSearch amountPre amountCap RE.eps text) with
  | none =>
    simp only [hA]
    exact iff_of_true trivial (Or.inl (fieldFloat_amount_none_iff.1 hA))
  | some pA =>
    cases hM : fieldFloat FieldName.miles false
        (reSearch milesPre milesCap milesPost text) with
    | none =>
      simp only [hA, hM]
      exact iff_of_true trivial (Or.inr (fieldFloat_miles_none_iff.1 hM))
    | some pM =>
      simp only [hA, hM]
      constructor
      · intro h
        cases h
      · rintro (hf | hf)
        · exact absurd (fieldFloat_amount_none_iff.2 hf) (by rw [hA]; exact fun h => by cases h)
        · exact absurd (fieldFloat_miles_none_iff.2 hf) (by rw [hM]; exact fun h => by cases h)

/-! ## Shape of the date captures -/

theorem all_digits_no_ws {t : List Char} (h : t.all digitB = true) :
    ∀ c ∈ t, pyWs c = false := by
  intro c hc
  have := digitB_bounds (List.all_eq_true.1 h c hc)
  exact pyWs_eq_false (by omega)

theorem dateCap_chars {t : List Char} (h : Lang dateCap t) : ∀ c ∈ t, pyWs c = false := by
  simp only [dateCap, Lang] at h
  obtain ⟨a1, r1, rfl, ⟨hlen1, hd1⟩, a2, r2, rfl, hsl1, a3, r3, rfl, ⟨hlen3, hd3⟩,
    a4, r4, rfl, hsl2, hyear⟩ := h
  cases hsl1 with
  | cons hc1 htl1 =>
    cases htl1
    cases hsl2 with
    | cons hc2 htl2 =>
      cases htl2
      rw [ciCharEq_slash hc1, ciCharEq_slash hc2]
      intro c hc
      rcases List.mem_append.1 hc with h1 | h2
      · exact all_digits_no_ws hd1 c h1
      rcases List.mem_append.1 h2 with h3 | h4
      · simp at h3
        subst h3
        decide
      rcases List.mem_append.1 h4 with h5 | h6
      · exact all_digits_no_ws hd3 c h5
      rcases List.mem_append.1 h6 with h7 | h8
      · simp at h7
        subst h7
        decide
      · rcases hyear with ⟨_, hdy⟩ | ⟨_, hdy⟩ <;> exact all_digits_no_ws hdy c h8

/-! ## Claims about whole-document failure and date retention -/

/-- C6, counterexample: a text that decodes fine but whose miles capture
`.` makes `float()` raise, so the whole document yields no record even
though decoding succeeded. -/
theorem extract_abort_cex : (extract_pdf_data (some cexMilesText)).1 = none := by decide

/-- C6, amended: whole-document extraction yields no record exactly when
the text decoding failed, or a matched numeric field's coercion failed
(`float()` on the Total Amount or Feeder Total Miles capture); a
non-matching pattern or a failed date coercion never aborts the
document. -/
theorem extract_none_iff (decoded : Option (List Char)) :
    (extract_pdf_data decoded).1 = none ↔
      decoded = none ∨
        ∃ s, decoded = some s ∧ (amountCoerceFails s ∨ milesCoerceFails s) := by
  cases decoded with
  | none => simp [extract_pdf_data]
  | some text =>
    simp only [extract_pdf_data]
    rw [extractFromText_none_iff]
    constructor
    · intro h
      exact Or.inr ⟨text, rfl, h⟩
    · rintro (h | ⟨s, hs, h⟩)
      · cases h
      · cases hs
        exact h

/-- Witness for `extract_none_iff` at the concrete aborting text. -/
theorem extract_none_iff_witness :
    milesCoerceFails cexMilesText ∧ (extract_pdf_data (some cexMilesText)).1 = none :=
  ⟨⟨".".toList, by decide, by decide⟩,
    (extract_none_iff (some cexMilesText)).2
      (Or.inr ⟨cexMilesText, rfl, Or.inr ⟨".".toList, by decide, by decide⟩⟩)⟩

theorem fieldDate_keeps_raw {f : FieldName} {raw : List Char}
    (hws : ∀ c ∈ raw, pyWs c = false)
    (h2 : strptimeMDY raw true = none) (h4 : strptimeMDY raw false = none) :
    fieldDate f (some raw) = (some raw, [LogEvent.errorDateParse raw]) := by
  have hpy : pyStrip raw = raw := pyStrip_eq_self hws
  have hbranch : dateBranch raw = none := by
    unfold dateBranch
    cases hb : (lastTok raw).length == 2 with
    | true => exact h2
    | false => exact h4
  simp [fieldDate, hpy, hbranch]

theorem extract_record_dates {text : List Char} {rec : Record}
    (h : (extract_pdf_data (some text)).1 = some rec) :
    rec.startDate = (fieldDate FieldName.startDate
      (reSearch (datePre "Start Date") dateCap RE.eps text)).1 ∧
    rec.endDate = (fieldDate FieldName.endDate
      (reSearch (datePre "End Date") dateCap RE.eps text)).1 := by
  simp only [extract_pdf_data, extractFromText] at h
  cases hA : fieldFloat FieldName.totalAmount true
      (reSearch amountPre amountCap RE.eps text) with
  | none => rw [hA] at h; cases h
  | some pA =>
    rw [hA] at h
    cases hM : fieldFloat FieldName.miles false
        (reSearch milesPre milesCap milesPost text) with
    | none => rw [hM] at h; cases h
    | some pM =>
      rw [hM] at h
      simp only [Option.some.injEq] at h
      subst h
      exact ⟨rfl, rfl⟩

/-- C5: when a date field's label pattern — Start Date or End Date, both
go through the same coercion — matches but the captured string fails both
date formats, a returned record keeps the raw capture as that field's
value (the field is present, not dropped), and only a numeric coercion —
never a date — can make the document fail. -/
theorem date_parse_failure_keeps_raw (text : List Char) :
    (∀ raw, reSearch (datePre "Start Date") dateCap RE.eps text = some raw →
      strptimeMDY raw true = none → strptimeMDY raw false = none →
      ∀ rec, (extract_pdf_data (some text)).1 = some rec →
        rec.startDate = some raw) ∧
    (∀ raw, reSearch (datePre "End Date") dateCap RE.eps text = some raw →
      strptimeMDY raw true = none → strptimeMDY raw false = none →
      ∀ rec, (extract_pdf_data (some text)).1 = some rec →
        rec.endDate = some raw) ∧
    ((extract_pdf_data (some text)).1 = none →
      amountCoerceFails text ∨ milesCoerceFails text) := by
  refine ⟨?_, ?_, ?_⟩
  · intro raw hs h2 h4 rec hrec
    rw [(extract_record_dates hrec).1, hs,
      fieldDate_keeps_raw (dateCap_chars (reSearch_sound hs)) h2 h4]
  · intro raw hs h2 h4 rec hrec
    rw [(extract_record_dates hrec).2, hs,
      fieldDate_keeps_raw (dateCap_chars (reSearch_sound hs)) h2 h4]
  · intro h
    exact (extractFromText_none_iff text).1 (by simpa [extract_pdf_data] using h)

/-- Witness for `date_parse_failure_keeps_raw` at a text whose start date
`02/30/24` and end date `13/05/24` each fail both formats; any extracted
record keeps both raw texts. -/
theorem date_parse_failure_keeps_raw_witness :
    (reSearch (datePre "Start Date") dateCap RE.eps wBadDateText = some "02/30/24".toList ∧
      ∀ rec, (extract_pdf_data (some wBadDateText)).1 = some rec →
        rec.startDate = some "02/30/24".toList) ∧
    (reSearch (datePre "End Date") dateCap RE.eps wBadDateText = some "13/05/24".toList ∧
      ∀ rec, (extract_pdf_data (some wBadDateText)).1 = some rec →
        rec.endDate = some "13/05/24".toList) :=
  ⟨⟨by decide, (date_parse_failure_keeps_raw wBadDateText).1 "02/30/24".toList
      (by decide) (by decide) (by decide)⟩,
    ⟨by decide, (date_parse_failure_keeps_raw wBadDateText).2.1 "13/05/24".toList
      (by decide) (by decide) (by decide)⟩⟩

/-- C8: contractor resolution tries the three literal patterns in order,
case-insensitively, returning the first match (stripped, as it appears in
the text); when none matches, the record carries no `Contractor` field
and the absence is logged as a warning, not an error. -/
theorem contractor_resolution (text : List Char) :
    (∀ m, reSearch RE.eps xpertCap RE.eps text = some m →
      extract_contractor_name text = some (pyStrip m)) ∧
    (reSearch RE.eps xpertCap RE.eps text = none →
      ∀ m, reSearch RE.eps ceresCap RE.eps text = some m →
        extract_contractor_name text = some (pyStrip m)) ∧
    (reSearch RE.eps xpertCap RE.eps text = none →
      reSearch RE.eps ceresCap RE.eps text = none →
      ∀ m, reSearch RE.eps wrightCap RE.eps text = some m →
        extract_contractor_name text = some (pyStrip m)) ∧
    (reSearch RE.eps xpertCap RE.eps text = none →
      reSearch RE.eps ceresCap RE.eps text = none →
      reSearch RE.eps wrightCap RE.eps text = none →
      extract_contractor_name text = none ∧
      (∀ rec, (extract_pdf_data (some text)).1 = some rec → rec.contractor = none) ∧
      LogEvent.warnNoContractor ∈ (extract_pdf_data (some text)).2 ∧
      LogEvent.warnNoContractor.level = LogLevel.warning) := by
  refine ⟨?_, ?_, ?_, ?_⟩
  · intro m hm
    simp [extract_contractor_name, hm]
  · intro hx m hm
    simp [extract_contractor_name, hx, hm]
  · intro hx hc m hm
    simp [extract_contractor_name, hx, hc, hm]
  · intro hx hc hw
    have hnone : extract_contractor_name text = none := by
      simp [extract_contractor_name, hx, hc, hw]
    refine ⟨hnone, ?_, ?_, rfl⟩
    · intro rec hrec
      simp only [extract_pdf_data, extractFromText, hnone] at hrec
      cases hA : fieldFloat FieldName.totalAmount true
          (reSearch amountPre amountCap RE.eps text) with
      | none => rw [hA] at hrec; cases hrec
      | some pA =>
        rw [hA] at hrec
        cases hM : fieldFloat FieldName.miles false
            (reSearch milesPre milesCap milesPost text) with
        | none => rw [hM] at hrec; cases hrec
        | some pM =>
          rw [hM] at hrec
          simp only [Option.some.injEq] at hrec
          subst hrec
          rfl
    · simp only [extract_pdf_data, extractFromText, hnone]
      cases fieldFloat FieldName.totalAmount true
          (reSearch amountPre amountCap RE.eps text) with
      | none => simp
      | some pA =>
        cases fieldFloat FieldName.miles false
            (reSearch milesPre milesCap milesPost text) with
        | none => simp
        | some pM => simp

/-- Witness for `contractor_resolution`: a lowercase text matches the
second pattern case-insensitively and the match is returned as it appears
in the text. -/
theorem contractor_resolution_witness :
    extract_contractor_name wCeresText =
      some (pyStrip "ceres environmental services, inc".toList) :=
  (contractor_resolution wCeresText).2.1 (by decide)
    "ceres environmental services, inc".toList (by decide)

/-! ## Date roundtrip lemmas -/

theorem dval_digitChar {k : Nat} (h : k ≤ 9) : dval (digitChar k) = some k := by
  interval_cases k <;> decide

theorem digitChar_ne_slash (k : Nat) : (digitChar k == '/') = false := by
  unfold digitChar
  split <;> decide

theorem pad2_length (n : Nat) : (pad2 n).length = 2 := by
  unfold pad2
  split <;> rfl

theorem pad2_no_slash {n : Nat} : ∀ x ∈ pad2 n, (x == '/') = false := by
  unfold pad2
  split
  · intro x hx
    rcases List.mem_cons.1 hx with rfl | hx2
    · decide
    · simp at hx2
      subst hx2
      exact digitChar_ne_slash _
  · intro x hx
    rcases List.mem_cons.1 hx with rfl | hx2
    · exact digitChar_ne_slash _
    · simp at hx2
      subst hx2
      exact digitChar_ne_slash _

theorem year4_no_slash {y : Nat} : ∀ x ∈ year4 y, (x == '/') = false := by
  unfold year4
  intro x hx
  simp only [List.mem_cons, List.not_mem_nil, or_false] at hx
  rcases hx with rfl | rfl | rfl | rfl <;> exact digitChar_ne_slash _

theorem splitSlash_no_slash {t : List Char} (h : ∀ c ∈ t, (c == '/') = false) :
    splitSlash t = [t] := by
  induction t with
  | nil => rfl
  | cons c cs ih =>
    simp only [splitSlash]
    rw [if_neg (by simp [h c (List.mem_cons_self c cs)])]
    rw [ih (fun x hx => h x (List.mem_cons_of_mem c hx))]

theorem splitSlash_append_slash {a : List Char} (rest : List Char)
    (h : ∀ c ∈ a, (c == '/') = false) :
    splitSlash (a ++ '/' :: rest) = a :: splitSlash rest := by
  induction a with
  | nil =>
    simp only [List.nil_append, splitSlash]
    rw [if_pos (by decide)]
  | cons c cs ih =>
    simp only [List.cons_append, splitSlash, List.append_eq]
    rw [if_neg (by simp [h c (List.mem_cons_self c cs)])]
    rw [ih (fun x hx => h x (List.mem_cons_of_mem c hx))]

theorem splitSlash_three {a b c : List Char}
    (ha : ∀ x ∈ a, (x == '/') = false) (hb : ∀ x ∈ b, (x == '/') = false)
    (hc : ∀ x ∈ c, (x == '/') = false) :
    splitSlash (a ++ '/' :: (b ++ '/' :: c)) = [a, b, c] := by
  rw [splitSlash_append_slash _ ha, splitSlash_append_slash _ hb, splitSlash_no_slash hc]

theorem monthTok_pad2 {m : Nat} (h1 : 1 ≤ m) (h2 : m ≤ 12) :
    monthTok (pad2 m) = some m := by
  unfold pad2
  by_cases hm : m < 10
  · rw [if_pos hm]
    simp only [monthTok]
    rw [(by decide : dval '0' = some 0), dval_digitChar (by omega)]
    simp only [Option.some_bind]
    rw [if_pos (by omega)]
    congr 1
    omega
  · rw [if_neg hm]
    simp only [monthTok]
    rw [dval_digitChar (by omega), dval_digitChar (by omega)]
    simp only [Option.some_bind]
    rw [if_pos (by omega)]
    congr 1
    omega

theorem dayTok_pad2 {d : Nat} (h1 : 1 ≤ d) (h2 : d ≤ 31) :
    dayTok (pad2 d) = some d := by
  unfold pad2
  by_cases hd : d < 10
  · rw [if_pos hd]
    simp only [dayTok]
    rw [(by decide : dval '0' = some 0), dval_digitChar (by omega)]
    simp only [Option.some_bind]
    rw [if_pos (by omega)]
    congr 1
    omega
  · rw [if_neg hd]
    simp only [dayTok]
    rw [dval_digitChar (by omega), dval_digitChar (by omega)]
    simp only [Option.some_bind]
    rw [if_pos (by omega)]
    congr 1
    omega

theorem yearTok2_pad2 {n : Nat} (h : n ≤ 99) : yearTok2 (pad2 n) = some n := by
  unfold pad2
  by_cases hn : n < 10
  · rw [if_pos hn]
    simp only [yearTok2]
    rw [(by decide : dval '0' = some 0), dval_digitChar (by omega)]
    simp only [Option.some_bind, Option.map_some']
    congr 1
    omega
  · rw [if_neg hn]
    simp only [yearTok2]
    rw [dval_digitChar (by omega), dval_digitChar (by omega)]
    simp only [Option.some_bind, Option.map_some']
    congr 1
    omega

theorem yearTok4_year4 {y : Nat} (h : y ≤ 9999) : yearTok4 (year4 y) = some y := by
  simp only [year4, yearTok4]
  rw [dval_digitChar (by omega), dval_digitChar (by omega),
    dval_digitChar (by omega), dval_digitChar (by omega)]
  simp only [Option.some_bind, Option.map_some']
  congr 1
  omega

theorem daysInMonth_le31 (y m : Nat) : daysInMonth y m ≤ 31 := by
  unfold daysInMonth
  split
  · split <;> omega
  · split <;> omega

theorem strptime_twoDigitForm {y m d : Nat} (hv : validDate y m d)
    (hy1 : 1969 ≤ y) (hy2 : y ≤ 2068) :
    strptimeMDY (twoDigitForm y m d) true = some (y, m, d) := by
  obtain ⟨hm1, hm2, hd1, hd2⟩ := hv
  have hd31 : d ≤ 31 := le_trans hd2 (daysInMonth_le31 y m)
  unfold twoDigitForm strptimeMDY
  rw [splitSlash_three pad2_no_slash pad2_no_slash pad2_no_slash]
  simp only [monthTok_pad2 hm1 hm2, dayTok_pad2 hd1 hd31,
    yearTok2_pad2 (by omega : y % 100 ≤ 99), Option.some_bind, if_true,
    Option.map_some']
  have hpivot : pivotYear (y % 100) = y := by
    unfold pivotYear
    split <;> omega
  rw [hpivot]
  rw [if_pos ⟨by omega, hd2⟩]

theorem strptime_fourDigitForm {y m d : Nat} (hv : validDate y m d)
    (hy1 : 1 ≤ y) (hy2 : y ≤ 9999) :
    strptimeMDY (fourDigitForm y m d) false = some (y, m, d) := by
  obtain ⟨hm1, hm2, hd1, hd2⟩ := hv
  have hd31 : d ≤ 31 := le_trans hd2 (daysInMonth_le31 y m)
  unfold fourDigitForm strptimeMDY
  rw [splitSlash_three pad2_no_slash pad2_no_slash year4_no_slash]
  simp only [monthTok_pad2 hm1 hm2, dayTok_pad2 hd1 hd31, yearTok4_year4 hy2,
    Bool.false_eq_true, if_false, Option.some_bind]
  rw [if_pos ⟨hy1, hd2⟩]

theorem lastTok_twoDigitForm (y m d : Nat) : lastTok (twoDigitForm y m d) = pad2 (y % 100) := by
  unfold lastTok twoDigitForm
  rw [splitSlash_three pad2_no_slash pad2_no_slash pad2_no_slash]
  rfl

theorem lastTok_fourDigitForm (y m d : Nat) : lastTok (fourDigitForm y m d) = year4 y := by
  unfold lastTok fourDigitForm
  rw [splitSlash_three pad2_no_slash pad2_no_slash year4_no_slash]
  rfl

/-! ## Claims about date normalization -/

/-- C4, counterexample: the CPython `%y` pivot maps two-digit years 69-99
to 19xx, so for the valid calendar date 2070-01-05 the two forms disagree:
`01/05/70` normalizes to `01/05/1970` while `01/05/2070` stays
`01/05/2070`. -/
theorem date_norm_century_cex :
    validDate 2070 1 5 ∧
    twoDigitForm 2070 1 5 = "01/05/70".toList ∧
    fourDigitForm 2070 1 5 = "01/05/2070".toList ∧
    coerceDate "01/05/70".toList = "01/05/1970".toList ∧
    coerceDate "01/05/2070".toList = "01/05/2070".toList ∧
    coerceDate (twoDigitForm 2070 1 5) ≠ coerceDate (fourDigitForm 2070 1 5) := by
  decide

/-- C4, amended: for every valid calendar date whose year lies in the
`%y` pivot window 1969-2068, the coercion maps both the `MM/DD/YY` form
and the `MM/DD/YYYY` form to the same canonical `MM/DD/YYYY` rendering;
the two-digit-year format is the one tried exactly when the token after
the last `/` has length 2 (which holds for the `MM/DD/YY` form and fails
for the `MM/DD/YYYY` form). -/
theorem date_norm_canonical (y m d : Nat) (hv : validDate y m d)
    (hy1 : 1969 ≤ y) (hy2 : y ≤ 2068) :
    coerceDate (twoDigitForm y m d) = strftimeMDY y m d ∧
    coerceDate (fourDigitForm y m d) = strftimeMDY y m d ∧
    (lastTok (twoDigitForm y m d)).length = 2 ∧
    (lastTok (fourDigitForm y m d)).length = 4 ∧
    (∀ s, dateBranch s = strptimeMDY s ((lastTok s).length == 2)) := by
  refine ⟨?_, ?_, ?_, ?_, fun s => rfl⟩
  · unfold coerceDate dateBranch
    rw [lastTok_twoDigitForm, pad2_length]
    rw [(by rfl : ((2 : Nat) == 2) = true)]
    rw [strptime_twoDigitForm hv hy1 hy2]
  · unfold coerceDate dateBranch
    rw [lastTok_fourDigitForm]
    rw [(by rfl : (year4 y).length = 4)]
    rw [(by rfl : ((4 : Nat) == 2) = false)]
    rw [strptime_fourDigitForm hv (by omega) (by omega)]
  · rw [lastTok_twoDigitForm, pad2_length]
  · rw [lastTok_fourDigitForm]
    rfl

/-- Witness for `date_norm_canonical` at the date 2024-01-05: both forms
normalize to `01/05/2024`. -/
theorem date_norm_canonical_witness :
    validDate 2024 1 5 ∧
      strftimeMDY 2024 1 5 = "01/05/2024".toList ∧
      coerceDate (twoDigitForm 2024 1 5) = strftimeMDY 2024 1 5 ∧
      coerceDate (fourDigitForm 2024 1 5) = strftimeMDY 2024 1 5 :=
  ⟨by decide, by decide,
    (date_norm_canonical 2024 1 5 (by decide) (by decide) (by decide)).1,
    (date_norm_canonical 2024 1 5 (by decide) (by decide) (by decide)).2.1⟩
